import Mathlib

/-
Verification of the kiosk front-end dialogue core (kiosk client script).
Shallow embedding of the turn controller (loopOnce), the amplitude gate
(checkAudioVolume), the streaming energy trigger, the MediaPipe presence
logic, the PCM playback decoder, and the subtitle formatter, with proofs of
the specification's claims about them.
Numeric audio samples are modelled as exact rationals; the JS code uses
IEEE doubles, whose arithmetic the claims do not constrain beyond the
comparisons modelled here.
-/

/-- Dialogue phases of the turn controller (`currentPhase` in the script:
idle | listening | processing | answering). -/
inductive Phase where
  | idle
  | listening
  | processing
  | answering
deriving DecidableEq, Repr

/-- Status text shown while idle (`IDLE_TEXT` constant of the script). -/
def IDLE_TEXT : String := "Күту режимі"

/-- Status text shown while listening (`LISTENING_TEXT` constant). -/
def LISTENING_TEXT : String := "Тыңдап тұрмын..."

/- ===== Amplitude gate (checkAudioVolume) ===== -/

/-- Sum of squared samples, as in the loop
`for i: sum += channelData[i] * channelData[i]` of checkAudioVolume. -/
def sumSq : List ℚ → ℚ
  | [] => 0
  | x :: xs => x * x + sumSq xs

/-- Mean of squared samples: `sum / channelData.length`. -/
def meanSq (ch : List ℚ) : ℚ := sumSq ch / (ch.length : ℚ)

/-- Quiet-audio RMS threshold of checkAudioVolume (`rms < 0.008`). -/
def QUIET_RMS : ℚ := 8 / 1000

/-- Decoded audio unit: `decodeAudioData` either yields the channel-0
sample list or throws (modelled as `none`). -/
structure Blob where
  samples : Option (List ℚ)
deriving DecidableEq

/-- Model of `checkAudioVolume`: decode failure returns true (fail-open,
the catch branch); otherwise the code computes `rms = sqrt(sum/length)`
and returns false iff `rms < 0.008`.  Since all quantities are
nonnegative, `sqrt(sum/length) < t` is the same as `sum/length < t^2`,
which is the executable comparison used here; the equivalence with the
square-root form is proved in `checkAudioVolume_sqrt`.  For an empty
decoded buffer the JS expression `0/0` is NaN and `NaN < 0.008` is false,
so the code returns true; the `ch = []` branch mirrors that. -/
def checkAudioVolume (b : Blob) : Bool :=
  match b.samples with
  | none => true
  | some ch =>
      if ch = [] then true
      else if meanSq ch < QUIET_RMS ^ 2 then false
      else true

/- ===== Turn controller (loopOnce) ===== -/

/-- Response of `sendAudioToBackend` (`/api/dialogue`): the fields loopOnce
reads. -/
structure Resp where
  userText : String
  answerText : String
  audioUrl : Option String
deriving DecidableEq

/-- Environment of one loopOnce invocation: the outcomes of its awaited
external operations.  `capture` is recordChunk (rejects on mic error or
when a capture is already active); `respond` is the fetch to the backend;
`playOk` is whether `audioEl.play()` succeeded (its failure is caught
inside loopOnce); `playbackEndsNaturally` is whether `onended` fired
before the 30 s safety timeout (both paths set phase idle). -/
structure LoopEnv where
  capture : Except Unit Blob
  respond : Except Unit Resp
  playOk : Bool
  playbackEndsNaturally : Bool

/-- Mutable controller state read and written by loopOnce: the `busy`
mutual-exclusion flag and `currentPhase`. -/
structure LoopState where
  busy : Bool
  phase : Phase
deriving DecidableEq, Repr

/-- How a loopOnce invocation ended. -/
inductive TurnExit where
  | droppedBusy
  | quietSkip
  | captureError
  | transportError
  | completed
deriving DecidableEq, Repr

/-- Observable report of one loopOnce invocation: whether
`sendAudioToBackend` was invoked, and on which path the call returned. -/
structure TurnReport where
  sendAttempted : Bool
  exit : TurnExit
deriving DecidableEq, Repr

/-- Model of `loopOnce`.  The source: `if (busy) return; busy = true;`
then capture, the volume gate (early return inside try), the backend
request, optional playback, and a `finally` block that unconditionally
sets `currentPhase = 'idle'; busy = false;` on every exit path (normal
return, the quiet-audio `return`, and every thrown error — the outer
catch only logs and shows a toast). -/
def loopOnce (env : LoopEnv) (s : LoopState) : LoopState × TurnReport :=
  if s.busy then (s, ⟨false, .droppedBusy⟩)
  else
    match env.capture with
    | .error _ => (⟨false, .idle⟩, ⟨false, .captureError⟩)
    | .ok blob =>
        if checkAudioVolume blob = false then
          (⟨false, .idle⟩, ⟨false, .quietSkip⟩)
        else
          match env.respond with
          | .error _ => (⟨false, .idle⟩, ⟨true, .transportError⟩)
          | .ok _resp => (⟨false, .idle⟩, ⟨true, .completed⟩)

/- ===== Interleaving model of turn-start attempts (busy flag) ===== -/

/-- System state for the interleaving model: the busy flag, the phase, and
the number of loopOnce invocations that passed the busy check and have not
yet run their `finally` block (the live, non-idle turns). -/
structure SysState where
  busy : Bool
  phase : Phase
  running : Nat
deriving DecidableEq, Repr

/-- Atomic events of the single-threaded event loop, at the await points
of loopOnce.  `start` is a loopOnce invocation reaching the busy check
(the check and `busy = true; currentPhase = 'listening'` run with no await
between them, hence one atomic event).  The remaining events are steps of
the one running turn; they are no-ops unless a turn is running, because
only a running turn executes that code. -/
inductive SysEv where
  | start
  | toProcessing
  | toAnswering
  | quietExit
  | errorExit
  | finishExit
deriving DecidableEq, Repr

/-- One atomic step of the interleaved system. -/
def sysStep (s : SysState) : SysEv → SysState
  | .start => if s.busy then s else ⟨true, .listening, s.running + 1⟩
  | .toProcessing => if s.running = 1 then ⟨s.busy, .processing, s.running⟩ else s
  | .toAnswering => if s.running = 1 then ⟨s.busy, .answering, s.running⟩ else s
  | .quietExit => if s.running = 1 then ⟨false, .idle, 0⟩ else s
  | .errorExit => if s.running = 1 then ⟨false, .idle, 0⟩ else s
  | .finishExit => if s.running = 1 then ⟨false, .idle, 0⟩ else s

/-- Initial system state: not busy, idle, no running turn. -/
def sysInit : SysState := ⟨false, .idle, 0⟩

/-- Run the system on a list of interleaved events. -/
def sysRun (evs : List SysEv) : SysState := evs.foldl sysStep sysInit

/- ===== Streaming-mode energy trigger (startWebSocketStreaming) ===== -/

/-- RMS threshold for the streaming trigger (`RMS_THRESHOLD = 0.02`). -/
def RMS_THRESHOLD : ℚ := 2 / 100

/-- Number of consecutive above-threshold windows required
(`REQUIRED_FRAMES = 3`). -/
def REQUIRED_FRAMES : Nat := 3

/-- One iteration of the counter update in the `check` callback:
`if (rms >= RMS_THRESHOLD) consecutive += 1; else consecutive = 0;`. -/
def triggerStep (c : Nat) (r : ℚ) : Nat :=
  if RMS_THRESHOLD ≤ r then c + 1 else 0

/-- Model of the trigger-sampling loop: each animation frame samples one
window RMS, updates the counter, and resolves (returns true) once
`consecutive >= REQUIRED_FRAMES`; otherwise it schedules the next frame.
Returns false when the window sequence is exhausted unresolved. -/
def streamTrigger (c : Nat) : List ℚ → Bool
  | [] => false
  | r :: rest =>
      let c2 := triggerStep c r
      if REQUIRED_FRAMES ≤ c2 then true else streamTrigger c2 rest

/- ===== Presence hold timer (faceMesh.onResults) ===== -/

/-- Default presence hold duration (`pcfg.holdMs ?? 20000`). -/
def DEFAULT_HOLD_MS : Nat := 20000

/-- Kind of an analyzed camera frame, as classified by the onResults
callback: a qualifying frame ((near or medium) tier AND attention AND in
the region of interest), a face frame that does not qualify, or a frame
with no detected face. -/
inductive FrameEv where
  | qual
  | nonQual
  | noFace
deriving DecidableEq, Repr

/-- Presence state: the `presenceDetected` flag and the pending
`presenceTimer` deadline (`none` when no timer is pending). -/
structure PState where
  present : Bool
  deadline : Option Nat
deriving DecidableEq, Repr

/-- Expiry of the pending hold timer: if the deadline has passed by time
`t` and was not cleared, the `setTimeout` callback has fired, setting
`presenceDetected = false`. -/
def fireCheck (t : Nat) (s : PState) : PState :=
  match s.deadline with
  | some d => if d ≤ t then ⟨false, none⟩ else s
  | none => s

/-- Effect of one analyzed frame at time `t`: a qualifying frame sets
`presenceDetected = true`, clears the pending timer
(`clearTimeout(presenceTimer)`) and schedules a new one `holdMs` later; a
non-qualifying face frame and a no-face frame touch neither the flag nor
the timer (they only adjust UI hints). -/
def applyFrame (holdMs t : Nat) (ev : FrameEv) (s : PState) : PState :=
  match ev with
  | .qual => ⟨true, some (t + holdMs)⟩
  | .nonQual => s
  | .noFace => s

/-- One timestamped event: any timer whose deadline has passed fires
before the frame callback at time `t` runs (the event loop runs due
timeouts first). -/
def pstep (holdMs : Nat) (s : PState) (e : Nat × FrameEv) : PState :=
  applyFrame holdMs e.1 e.2 (fireCheck e.1 s)

/-- Run the presence monitor over a time-ordered list of analyzed frames,
from the initial state (`presenceDetected = false`, no timer). -/
def prun (holdMs : Nat) (evs : List (Nat × FrameEv)) : PState :=
  evs.foldl (pstep holdMs) ⟨false, none⟩

/-- Observed presence at time `t`, after all frames of `evs` (whose times
are at most `t`): any timer due by `t` has fired. -/
def presentAt (holdMs : Nat) (evs : List (Nat × FrameEv)) (t : Nat) : Bool :=
  (fireCheck t (prun holdMs evs)).present

/- ===== Frame classification (distance tier / attention / ROI) ===== -/

/-- Region of interest from config (`pcfg.roi`), in normalized 0..1
coordinates. -/
structure Roi where
  top : ℚ
  left : ℚ
  width : ℚ
  height : ℚ
deriving DecidableEq, Repr

/-- Presence configuration as loaded into `window.__presenceCfg`; absent
fields fall back to the script's defaults via `??`. -/
structure PresenceCfg where
  nearThreshold : Option ℚ
  mediumThreshold : Option ℚ
  attentionTolerancePx : Option ℚ
  roi : Option Roi
deriving DecidableEq, Repr

/-- Resolved near threshold: `pcfg.nearThreshold ?? 0.10`. -/
def nearTh (cfg : PresenceCfg) : ℚ := cfg.nearThreshold.getD (10 / 100)

/-- Resolved medium threshold: `pcfg.mediumThreshold ?? 0.07`. -/
def medTh (cfg : PresenceCfg) : ℚ := cfg.mediumThreshold.getD (7 / 100)

/-- Resolved attention tolerance: `pcfg.attentionTolerancePx ?? 80`. -/
def attTol (cfg : PresenceCfg) : ℚ := cfg.attentionTolerancePx.getD 80

/-- Resolved region of interest:
`pcfg.roi || (top 0, left 0, width 1, height 1)`. -/
def roiOf (cfg : PresenceCfg) : Roi := cfg.roi.getD ⟨0, 0, 1, 1⟩

/-- Distance tier. -/
inductive Tier where
  | near
  | medium
  | far
deriving DecidableEq, Repr

/-- Measurements of one frame with a detected face: the normalized
inter-eye distance `eyeDistanceNorm` (the script computes it as
`sqrt(dx^2+dy^2) / videoWidth` from landmarks 33 and 263), the eye and
nose-tip landmark coordinates (normalized 0..1), and the video frame
dimensions in pixels. -/
structure FaceFrame where
  eyeDistanceNorm : ℚ
  leftEyeX : ℚ
  leftEyeY : ℚ
  rightEyeX : ℚ
  rightEyeY : ℚ
  noseX : ℚ
  noseY : ℚ
  videoWidth : ℚ
  videoHeight : ℚ
deriving DecidableEq, Repr

/-- Tier classification: `if (norm >= nearTh) 'near' else if (norm >=
medTh) 'medium' else 'far'`. -/
def tierOf (cfg : PresenceCfg) (f : FaceFrame) : Tier :=
  if nearTh cfg ≤ f.eyeDistanceNorm then .near
  else if medTh cfg ≤ f.eyeDistanceNorm then .medium
  else .far

/-- Horizontal nose-to-mid-eye offset in pixels:
`abs(((leftEye.x + rightEye.x)/2) - nose.x) * videoWidth`. -/
def horizOffset (f : FaceFrame) : ℚ :=
  |((f.leftEyeX + f.rightEyeX) / 2 - f.noseX)| * f.videoWidth

/-- Vertical nose-to-mid-eye offset in pixels:
`abs(((leftEye.y + rightEye.y)/2) - nose.y) * videoHeight`. -/
def vertOffset (f : FaceFrame) : ℚ :=
  |((f.leftEyeY + f.rightEyeY) / 2 - f.noseY)| * f.videoHeight

/-- Attention predicate: `horizOffset < tol && vertOffset < tol`. -/
def attentionOf (cfg : PresenceCfg) (f : FaceFrame) : Bool :=
  decide (horizOffset f < attTol cfg ∧ vertOffset f < attTol cfg)

/-- ROI membership of the nose tip:
`nose.x >= left && nose.x <= left+width && nose.y >= top && nose.y <= top+height`. -/
def inRoiOf (cfg : PresenceCfg) (f : FaceFrame) : Bool :=
  decide ((roiOf cfg).left ≤ f.noseX ∧ f.noseX ≤ (roiOf cfg).left + (roiOf cfg).width ∧
    (roiOf cfg).top ≤ f.noseY ∧ f.noseY ≤ (roiOf cfg).top + (roiOf cfg).height)

/-- Qualifying-frame predicate of the onResults callback:
`(tier === 'near' || tier === 'medium') && attention && inRoi`. -/
def qualifiesFrame (cfg : PresenceCfg) (f : FaceFrame) : Bool :=
  (decide (tierOf cfg f = .near) || decide (tierOf cfg f = .medium)) &&
    attentionOf cfg f && inRoiOf cfg f

/- ===== Streaming client (WebSocket message / close handlers) ===== -/

/-- State touched by the streaming-mode handlers: the channel handle
(`wsStream !== null`), the MediaRecorder and microphone tracks, the status
label text, the avatar emotion last passed to
`avatarController.setEmotion`, the announced sample rate, and the number
of PCM samples already scheduled on the playback context. -/
structure StreamState where
  wsOpen : Bool
  recorderActive : Bool
  micActive : Bool
  statusText : String
  avatarEmotion : String
  sampleRate : ℚ
  scheduledSamples : Nat
deriving DecidableEq, Repr

/-- Structured frames of the persistent channel, as parsed by
`wsStream.onmessage` (a binary frame is a PCM chunk). -/
inductive StreamMsg where
  | userText (text : String)
  | answer (text : String) (emotion gesture : Option String)
  | audioStart (sampleRate : Option ℚ) (emotion : Option String)
  | audioEnd
  | pcmChunk (sampleCount : Nat)
deriving DecidableEq, Repr

/-- Model of `wsStream.onmessage`: `user_text` and `answer` append to the
log (`answer` forwards emotion/gesture to the avatar when present);
`audio_start` records `obj.sampleRate || 16000` and sets the avatar
emotion to `obj.emotion` or `'happy'`; `audio_end` sets the avatar
emotion to `'neutral'`; a binary frame schedules its PCM samples for
playback. -/
def onMessage (s : StreamState) : StreamMsg → StreamState
  | .userText _ => s
  | .answer _ emo _gesture =>
      match emo with
      | some e => { s with avatarEmotion := e }
      | none => s
  | .audioStart rate emo =>
      { s with
        sampleRate := rate.getD 16000
        avatarEmotion := emo.getD "happy" }
  | .audioEnd => { s with avatarEmotion := "neutral" }
  | .pcmChunk n => { s with scheduledSamples := s.scheduledSamples + n }

/-- Model of `wsStream.onclose`: `recorder.stop(); stream.getTracks()
.forEach(t => t.stop()); wsStream = null; statusEl.textContent =
IDLE_TEXT;` — nothing else is touched: no `setEmotion` call, no playback
cancellation. -/
def onClose (s : StreamState) : StreamState :=
  { s with
    wsOpen := false
    recorderActive := false
    micActive := false
    statusText := IDLE_TEXT }

/- ===== Buffered-mode polling loop (mainLoop) and camera denial ===== -/

/-- State of the buffered-mode polling loop in mainLoop: the
`presenceDetected` flag (set only by the face-detection callback), the
phase, and a count of dialogue turns started (loopOnce invocations that
passed the gate). -/
structure Kiosk where
  presenceDetected : Bool
  currentPhase : Phase
  turnsStarted : Nat
deriving DecidableEq, Repr

/-- One 1.5 s polling iteration of mainLoop:
`if (presenceDetected && currentPhase === 'idle') { ... await loopOnce() }
else { /* skip recording */ }`.  A started turn runs to completion within
the awaited iteration and ends idle (see `loopOnce_returns_idle`). -/
def pollTick (s : Kiosk) : Kiosk :=
  if s.presenceDetected && decide (s.currentPhase = .idle) then
    { s with turnsStarted := s.turnsStarted + 1 }
  else s

/-- Iterate the polling loop `n` times. -/
def pollRun : Nat → Kiosk → Kiosk
  | 0, s => s
  | n + 1, s => pollRun n (pollTick s)

/-- Start state after camera denial: the catch branch of
startPresenceDetection calls `mainLoop()` and returns before FaceMesh is
created, so no frame callback ever runs and `presenceDetected` (initially
`false`) is never written again. -/
def cameraDeniedInit : Kiosk := ⟨false, .idle, 0⟩

/- ===== PCM playback decoding (playPcmChunk) ===== -/

/-- Little-endian signed 16-bit value from two bytes, as the
`Int16Array` view reads it: low byte first, two's complement. -/
def toInt16 (lo hi : Nat) : ℤ :=
  if lo + 256 * hi < 32768 then (lo + 256 * hi : ℤ)
  else (lo + 256 * hi : ℤ) - 65536

/-- Reinterpret a byte buffer as `Int16Array`: consecutive little-endian
pairs.  `new Int16Array(arrayBuffer)` throws a RangeError when the byte
length is odd, modelled as `none`. -/
def int16Words : List Nat → Option (List ℤ)
  | [] => some []
  | [_] => none
  | lo :: hi :: rest => (int16Words rest).map (toInt16 lo hi :: ·)

/-- Float conversion in playPcmChunk: `float32[i] = int16[i] / 32768.0`
(exact, since any |v| ≤ 32768 over 2^15 is a float32). -/
def pcmFloat (w : ℤ) : ℚ := (w : ℚ) / 32768

/-- Result of one playPcmChunk call: the sample values written into the
created AudioBuffer, and the buffer's duration in seconds
(`createBuffer(1, float32.length, sampleRate)` gives length/sampleRate). -/
structure PlayedChunk where
  samples : List ℚ
  duration : ℚ
deriving DecidableEq, Repr

/-- Model of `playPcmChunk(arrayBuffer, sampleRate, audioCtx)`: decode the
bytes as Int16LE mono PCM, scale each word by 1/32768, and schedule a
buffer of exactly that many samples at the announced rate. -/
def playPcmChunk (bytes : List Nat) (sampleRate : ℚ) : Option PlayedChunk :=
  (int16Words bytes).map fun ws =>
    ⟨ws.map pcmFloat, (ws.length : ℚ) / sampleRate⟩

/-- Total scheduled playback duration across a turn's chunks. -/
def totalDuration (chunks : List (List Nat)) (sampleRate : ℚ) : ℚ :=
  (chunks.map fun bytes =>
    match playPcmChunk bytes sampleRate with
    | some c => c.duration
    | none => 0).sum

/-- Total number of PCM samples (16-bit words) carried by a turn's binary
frames. -/
def pcmSampleCount (chunks : List (List Nat)) : Nat :=
  (chunks.map fun c => c.length / 2).sum

/- ===== Subtitle formatter (formatSubtitle) ===== -/

/-- Whitespace test used for the `\s` class of the split regex; JS strings
are modelled as lists of characters. -/
def isWs (c : Char) : Bool := c.isWhitespace

/-- Accumulating splitter: gathers the current word (reversed) and emits
it when whitespace or the end of the text is reached. -/
def splitWsAux : List Char → List Char → List (List Char)
  | [], cur => if cur = [] then [] else [cur.reverse]
  | c :: cs, cur =>
      if isWs c then
        if cur = [] then splitWsAux cs []
        else cur.reverse :: splitWsAux cs []
      else splitWsAux cs (c :: cur)

/-- Model of `(text || '').trim().split(/\s+/)`: the maximal runs of
non-whitespace characters, in order.  For a whitespace-only input the JS
expression yields `['']`, whose single empty word never starts a line;
here it yields `[]`, which produces the same formatted output. -/
def wordsOf (text : List Char) : List (List Char) := splitWsAux text []

/-- Single-space join of a word list, the shape of the `current`
accumulator (`current += ' ' + w`). -/
def joinWords : List (List Char) → List Char
  | [] => []
  | [w] => w
  | w :: ws => w ++ ' ' :: joinWords ws

/-- Line-breaking loop of formatSubtitle: a word extends the current line
when `(current + ' ' + w).length <= maxCharsPerLine`, otherwise the
current line is emitted and the word starts a new one; a trailing
non-empty line is emitted at the end.  The `current.length == 0` branch
seeds the first word. -/
def linesLoop (maxChars : Nat) (current : List Char) : List (List Char) → List (List Char)
  | [] => if current.length = 0 then [] else [current]
  | w :: ws =>
      if current.length = 0 then linesLoop maxChars w ws
      else if (current ++ ' ' :: w).length ≤ maxChars then
        linesLoop maxChars (current ++ ' ' :: w) ws
      else current :: linesLoop maxChars w ws

/-- Model of `formatSubtitle(text, maxCharsPerLine = 44)`: split into
words, greedily fill lines, cap the result at 3 lines
(`lines.slice(0, 3)`). -/
def formatSubtitle (text : List Char) (maxChars : Nat := 44) : List (List Char) :=
  (linesLoop maxChars [] (wordsOf text)).take 3

/-- Invariant of the interleaving model: at most one live turn, and no
live turn unless the busy flag is set. -/
def SysInv (s : SysState) : Prop := s.running ≤ 1 ∧ (s.busy = false → s.running = 0)

/- ===== Theorems ===== -/

lemma sysStep_preserves (s : SysState) (e : SysEv) (h : SysInv s) : SysInv (sysStep s e) := by
  obtain ⟨h1, h2⟩ := h
  cases e <;> simp only [sysStep, SysInv] <;> split <;> simp_all

lemma sysRun_from (evs : List SysEv) :
    ∀ s : SysState, SysInv s → SysInv (evs.foldl sysStep s) := by
  induction evs with
  | nil => intro s h; simpa using h
  | cons e rest ih =>
      intro s h
      simpa using ih (sysStep s e) (sysStep_preserves s e h)

/-- C1: At most one DialogueTurn is in a non-idle phase at any instant:
under every interleaving of turn-start attempts at most one invocation of
loopOnce is ever live (`running ≤ 1`), a start attempt made while the busy
flag is set leaves the system state unchanged, and the dropped loopOnce
call returns immediately with its state argument intact, no send
attempted, and the `droppedBusy` outcome (no error is raised and nothing
is queued). -/
theorem busy_mutual_exclusion :
    (∀ evs : List SysEv, (sysRun evs).running ≤ 1) ∧
    (∀ s : SysState, s.busy = true → sysStep s .start = s) ∧
    (∀ (env : LoopEnv) (s : LoopState), s.busy = true →
      loopOnce env s = (s, ⟨false, .droppedBusy⟩)) := by
  refine ⟨fun evs => ?_, fun s hs => ?_, fun env s hs => ?_⟩
  · exact (sysRun_from evs sysInit (by simp [SysInv, sysInit])).1
  · simp [sysStep, hs]
  · simp [loopOnce, hs]

/-- Witness for `busy_mutual_exclusion` at concrete inputs: two start
attempts back to back, a drop of a start on a busy system state, and a
dropped loopOnce call. -/
theorem busy_mutual_exclusion_witness :
    (sysRun [.start, .start, .toProcessing]).running ≤ 1 ∧
    sysStep ⟨true, .listening, 1⟩ .start = ⟨true, .listening, 1⟩ ∧
    loopOnce ⟨.error (), .error (), true, true⟩ ⟨true, .listening⟩ =
      (⟨true, .listening⟩, ⟨false, .droppedBusy⟩) :=
  ⟨busy_mutual_exclusion.1 _, busy_mutual_exclusion.2.1 _ rfl,
    busy_mutual_exclusion.2.2 _ _ rfl⟩

/-- C3: On every exit path of a started dialogue turn — normal
completion, the sub-threshold-audio early return, capture error,
transport error, and a playback error (caught internally) — the `finally`
block leaves the controller with phase idle and the busy flag released. -/
theorem loopOnce_returns_idle (env : LoopEnv) (s : LoopState) (hb : s.busy = false) :
    (loopOnce env s).1.busy = false ∧ (loopOnce env s).1.phase = .idle := by
  unfold loopOnce
  rw [hb]
  cases env.capture with
  | error e => simp
  | ok blob =>
      by_cases hv : checkAudioVolume blob = false
      · simp [hv]
      · cases hr : env.respond <;> simp [hv, hr]

/-- Witness for `loopOnce_returns_idle`: a turn whose capture fails still
ends idle and released. -/
theorem loopOnce_returns_idle_witness :
    (loopOnce ⟨.error (), .error (), true, true⟩ ⟨false, .idle⟩).1.busy = false ∧
    (loopOnce ⟨.error (), .error (), true, true⟩ ⟨false, .idle⟩).1.phase = .idle :=
  loopOnce_returns_idle _ _ rfl

lemma streamTrigger_sound : ∀ (ws : List ℚ) (c : Nat), streamTrigger c ws = true →
    (REQUIRED_FRAMES - c ≤ ws.length ∧
      ∀ j < REQUIRED_FRAMES - c, RMS_THRESHOLD ≤ ws.getD j 0) ∨
    (∃ i, i + REQUIRED_FRAMES ≤ ws.length ∧
      ∀ j < REQUIRED_FRAMES, RMS_THRESHOLD ≤ ws.getD (i + j) 0) := by
  intro ws
  induction ws with
  | nil => intro c h; simp [streamTrigger] at h
  | cons r rest ih =>
      intro c h
      by_cases hr : RMS_THRESHOLD ≤ r
      · rw [streamTrigger] at h
        simp only [triggerStep, if_pos hr] at h
        by_cases h3 : REQUIRED_FRAMES ≤ c + 1
        · left
          have h3' : (3:Nat) ≤ c + 1 := by simpa [REQUIRED_FRAMES] using h3
          constructor
          · simp [REQUIRED_FRAMES]; omega
          · intro j hj
            have hj' : j < 3 - c := by simpa [REQUIRED_FRAMES] using hj
            have : j = 0 := by omega
            subst this
            simpa using hr
        · rw [if_neg h3] at h
          rcases ih (c + 1) h with ⟨hl, hp⟩ | ⟨i, hi, hp⟩
          · left
            have h3' : ¬ (3:Nat) ≤ c + 1 := by simpa [REQUIRED_FRAMES] using h3
            have hl' : 3 - (c + 1) ≤ rest.length := by simpa [REQUIRED_FRAMES] using hl
            constructor
            · simp [REQUIRED_FRAMES]; omega
            · intro j hj
              have hj' : j < 3 - c := by simpa [REQUIRED_FRAMES] using hj
              cases j with
              | zero => simpa using hr
              | succ j' =>
                  rw [List.getD_cons_succ]
                  apply hp
                  simp [REQUIRED_FRAMES]
                  omega
          · right
            refine ⟨i + 1, by simp; omega, fun j hj => ?_⟩
            rw [show i + 1 + j = (i + j) + 1 by omega, List.getD_cons_succ]
            exact hp j hj
      · rw [streamTrigger] at h
        simp only [triggerStep, if_neg hr] at h
        rw [if_neg (by simp [REQUIRED_FRAMES])] at h
        rcases ih 0 h with ⟨hl, hp⟩ | ⟨i, hi, hp⟩
        · right
          have hl' : (3:Nat) ≤ rest.length := by simpa [REQUIRED_FRAMES] using hl
          refine ⟨1, by simp [REQUIRED_FRAMES]; omega, fun j hj => ?_⟩
          rw [show 1 + j = j + 1 by omega, List.getD_cons_succ]
          exact hp j (by simpa using hj)
        · right
          refine ⟨i + 1, by simp; omega, fun j hj => ?_⟩
          rw [show i + 1 + j = (i + j) + 1 by omega, List.getD_cons_succ]
          exact hp j hj

lemma streamTrigger_mono : ∀ (ws : List ℚ) (c c' : Nat), c ≤ c' →
    streamTrigger c ws = true → streamTrigger c' ws = true := by
  intro ws
  induction ws with
  | nil => intro c c' _ h; simp [streamTrigger] at h
  | cons r rest ih =>
      intro c c' hcc h
      by_cases hr : RMS_THRESHOLD ≤ r
      · rw [streamTrigger] at h ⊢
        simp only [triggerStep, if_pos hr] at h ⊢
        by_cases h3 : REQUIRED_FRAMES ≤ c' + 1
        · rw [if_pos h3]
        · have h3c : ¬ REQUIRED_FRAMES ≤ c + 1 := by
            intro hcon; exact h3 (le_trans hcon (by omega))
          rw [if_neg h3c] at h
          rw [if_neg h3]
          exact ih (c + 1) (c' + 1) (by omega) h
      · rw [streamTrigger] at h ⊢
        simp only [triggerStep, if_neg hr] at h ⊢
        exact h

lemma streamTrigger_prefix : ∀ (ws : List ℚ) (c : Nat), c < REQUIRED_FRAMES →
    REQUIRED_FRAMES ≤ c + ws.length →
    (∀ j, j + c < REQUIRED_FRAMES → RMS_THRESHOLD ≤ ws.getD j 0) →
    streamTrigger c ws = true := by
  intro ws
  induction ws with
  | nil => intro c hc hlen _; simp at hlen; omega
  | cons r rest ih =>
      intro c hc hlen hhigh
      have hr : RMS_THRESHOLD ≤ r := by
        have := hhigh 0 (by omega)
        simpa using this
      rw [streamTrigger]
      simp only [triggerStep, if_pos hr]
      by_cases h3 : REQUIRED_FRAMES ≤ c + 1
      · rw [if_pos h3]
      · rw [if_neg h3]
        apply ih (c + 1) (by omega)
        · simp at hlen ⊢; omega
        · intro j hj
          have := hhigh (j + 1) (by omega)
          simpa using this

lemma streamTrigger_of_run : ∀ (ws : List ℚ) (i : Nat),
    i + REQUIRED_FRAMES ≤ ws.length →
    (∀ j < REQUIRED_FRAMES, RMS_THRESHOLD ≤ ws.getD (i + j) 0) →
    streamTrigger 0 ws = true := by
  intro ws
  induction ws with
  | nil => intro i hi _; simp [REQUIRED_FRAMES] at hi
  | cons r rest ih =>
      intro i hi hhigh
      cases i with
      | zero =>
          apply streamTrigger_prefix _ 0 (by simp [REQUIRED_FRAMES])
          · simpa using hi
          · intro j hj
            have := hhigh j (by omega)
            simpa using this
      | succ i' =>
          have h1 : streamTrigger 0 rest = true := by
            apply ih i'
            · simp at hi; omega
            · intro j hj
              have := hhigh j hj
              rw [show i' + 1 + j = (i' + j) + 1 by omega, List.getD_cons_succ] at this
              exact this
          rw [streamTrigger]
          by_cases hr : RMS_THRESHOLD ≤ r
          · simp only [triggerStep, if_pos hr]
            by_cases h3 : REQUIRED_FRAMES ≤ 0 + 1
            · rw [if_pos h3]
            · rw [if_neg h3]
              exact streamTrigger_mono rest 0 (0 + 1) (by omega) h1
          · simp only [triggerStep, if_neg hr]
            rw [if_neg (by simp [REQUIRED_FRAMES])]
            exact h1

/-- C4: In streaming mode, emission is triggered exactly when some 3
consecutive sampled windows all have RMS ≥ 0.02 (so when no such run
exists, emission is never triggered); the consecutive-window counter
resets to 0 on every below-threshold window; the defaults are 3 frames
and 0.02; and the particular sequence of one above-threshold window
followed by a below-threshold window does not trigger. -/
theorem streaming_trigger_requires_consecutive :
    (∀ ws : List ℚ, streamTrigger 0 ws = true ↔
      ∃ i, i + REQUIRED_FRAMES ≤ ws.length ∧
        ∀ j < REQUIRED_FRAMES, RMS_THRESHOLD ≤ ws.getD (i + j) 0) ∧
    (∀ (c : Nat) (r : ℚ), r < RMS_THRESHOLD → triggerStep c r = 0) ∧
    REQUIRED_FRAMES = 3 ∧ RMS_THRESHOLD = 2 / 100 ∧
    streamTrigger 0 [2 / 100, 0] = false := by
  refine ⟨fun ws => ⟨fun h => ?_, fun ⟨i, hi, hh⟩ => streamTrigger_of_run ws i hi hh⟩,
    fun c r hr => ?_, rfl, rfl, ?_⟩
  · rcases streamTrigger_sound ws 0 h with ⟨hl, hp⟩ | hre
    · exact ⟨0, by simpa using hl, fun j hj => by simpa using hp j (by simpa using hj)⟩
    · exact hre
  · rw [triggerStep, if_neg (not_le.mpr hr)]
  · norm_num [streamTrigger, triggerStep, RMS_THRESHOLD, REQUIRED_FRAMES]

/-- Witness for `streaming_trigger_requires_consecutive`: a below-threshold
window resets a counter of 5, and the two-window sequence does not
trigger. -/
theorem streaming_trigger_requires_consecutive_witness :
    triggerStep 5 (1 / 100) = 0 ∧ streamTrigger 0 [2 / 100, 0] = false :=
  ⟨streaming_trigger_requires_consecutive.2.1 5 (1 / 100)
      (by norm_num [RMS_THRESHOLD]),
    streaming_trigger_requires_consecutive.2.2.2.2⟩

lemma pstep_qual (holdMs : Nat) (s : PState) (te : Nat) :
    pstep holdMs s (te, .qual) = ⟨true, some (te + holdMs)⟩ := rfl

lemma presence_foldl_inv (holdMs tq t : Nat) :
    ∀ (l2 : List (Nat × FrameEv)) (s : PState),
    (∀ e ∈ l2, tq ≤ e.1 ∧ e.1 ≤ t) →
    s.present = true →
    (∃ d, s.deadline = some d ∧ tq + holdMs ≤ d) →
    t < tq + holdMs →
    (l2.foldl (pstep holdMs) s).present = true ∧
      ∃ d, (l2.foldl (pstep holdMs) s).deadline = some d ∧ tq + holdMs ≤ d := by
  intro l2
  induction l2 with
  | nil => intro s _ hp hd _; exact ⟨hp, hd⟩
  | cons e rest ih =>
      rintro s hmem hp ⟨d, hdl, hdge⟩ hlt
      obtain ⟨hetq, het⟩ := hmem e (List.mem_cons_self _ _)
      have hfire : fireCheck e.1 s = s := by
        simp only [fireCheck, hdl]
        rw [if_neg (by omega)]
      have hrest : ∀ e' ∈ rest, tq ≤ e'.1 ∧ e'.1 ≤ t :=
        fun e' he' => hmem e' (List.mem_cons_of_mem _ he')
      rw [List.foldl_cons]
      rcases e with ⟨te, ev⟩
      cases ev with
      | qual =>
          rw [pstep_qual]
          exact ih _ hrest rfl ⟨te + holdMs, rfl, by simp at hetq; omega⟩ hlt
      | nonQual =>
          have : pstep holdMs s (te, .nonQual) = s := by
            rw [pstep]
            simp only [applyFrame]
            exact hfire
          rw [this]
          exact ih s hrest hp ⟨d, hdl, hdge⟩ hlt
      | noFace =>
          have : pstep holdMs s (te, .noFace) = s := by
            rw [pstep]
            simp only [applyFrame]
            exact hfire
          rw [this]
          exact ih s hrest hp ⟨d, hdl, hdge⟩ hlt

lemma presence_lag (holdMs : Nat) (evs : List (Nat × FrameEv)) (tq t : Nat)
    (hmono : evs.Pairwise (fun a b => a.1 ≤ b.1))
    (hq : (tq, FrameEv.qual) ∈ evs)
    (hall : ∀ e ∈ evs, e.1 ≤ t)
    (hlt : t < tq + holdMs) :
    presentAt holdMs evs t = true := by
  obtain ⟨l1, l2, rfl⟩ := List.append_of_mem hq
  rw [presentAt, prun, List.foldl_append, List.foldl_cons, pstep_qual]
  have hpair : ∀ e ∈ l2, tq ≤ e.1 := by
    have h2 : ((tq, FrameEv.qual) :: l2).Pairwise (fun a b => a.1 ≤ b.1) :=
      (List.pairwise_append.mp hmono).2.1
    exact fun e he => (List.pairwise_cons.mp h2).1 e he
  have hall2 : ∀ e ∈ l2, e.1 ≤ t := fun e he =>
    hall e (by simp [he])
  obtain ⟨hp, d, hdl, hdge⟩ :=
    presence_foldl_inv holdMs tq t l2 ⟨true, some (tq + holdMs)⟩
      (fun e he => ⟨hpair e he, hall2 e he⟩) rfl ⟨tq + holdMs, rfl, le_refl _⟩ hlt
  simp only [fireCheck, hdl]
  rw [if_neg (by omega)]
  exact hp

/-- C5: Each qualifying frame restarts the hold timer to its time plus
holdMs; presence observed at any time `t` within holdMs of a qualifying
frame is still true, for every time-ordered frame sequence (presence-off
lags the last qualifying detection by at least holdMs); frames with no
detected face — and non-qualifying face frames — change neither the flag
nor the timer; and presence flips from true to false only through an
expired hold deadline, never through a frame itself. -/
theorem presence_hold_lag (holdMs : Nat) :
    (∀ (evs : List (Nat × FrameEv)) (tq t : Nat),
      evs.Pairwise (fun a b => a.1 ≤ b.1) →
      (tq, FrameEv.qual) ∈ evs →
      (∀ e ∈ evs, e.1 ≤ t) →
      t < tq + holdMs →
      presentAt holdMs evs t = true) ∧
    (∀ (t : Nat) (s : PState),
      applyFrame holdMs t .noFace s = s ∧ applyFrame holdMs t .nonQual s = s) ∧
    (∀ (s : PState) (e : Nat × FrameEv), s.present = true →
      (pstep holdMs s e).present = false →
      e.2 ≠ .qual ∧ ∃ d, s.deadline = some d ∧ d ≤ e.1) ∧
    (∀ (t : Nat) (s : PState), applyFrame holdMs t .qual s = ⟨true, some (t + holdMs)⟩) := by
  refine ⟨presence_lag holdMs, fun t s => ⟨rfl, rfl⟩, ?_, fun t s => rfl⟩
  rintro s ⟨te, ev⟩ hp hf
  cases ev with
  | qual => rw [pstep_qual] at hf; simp at hf
  | nonQual =>
      refine ⟨by simp, ?_⟩
      rw [pstep] at hf
      simp only [applyFrame] at hf
      rcases hd : s.deadline with _ | d
      · rw [fireCheck, hd] at hf; simp [hp] at hf
      · refine ⟨d, rfl, ?_⟩
        by_contra hgt
        simp only [fireCheck, hd] at hf
        rw [if_neg (show ¬ d ≤ te from hgt)] at hf
        simp [hp] at hf
  | noFace =>
      refine ⟨by simp, ?_⟩
      rw [pstep] at hf
      simp only [applyFrame] at hf
      rcases hd : s.deadline with _ | d
      · rw [fireCheck, hd] at hf; simp [hp] at hf
      · refine ⟨d, rfl, ?_⟩
        by_contra hgt
        simp only [fireCheck, hd] at hf
        rw [if_neg (show ¬ d ≤ te from hgt)] at hf
        simp [hp] at hf

/-- Witness for `presence_hold_lag`: with the default 20000 ms hold, a
qualifying frame at time 0 followed by a no-face frame at time 10 keeps
presence true at time 15000, and a no-face frame is inert. -/
theorem presence_hold_lag_witness :
    presentAt 20000 [(0, FrameEv.qual), (10, FrameEv.noFace)] 15000 = true ∧
    applyFrame 20000 99 .noFace ⟨true, some 5⟩ = ⟨true, some 5⟩ :=
  ⟨(presence_hold_lag 20000).1 _ 0 15000
      (by simp [List.pairwise_cons]) (by simp)
      (by intro e he; fin_cases he <;> norm_num)
      (by norm_num),
    ((presence_hold_lag 20000).2.1 99 ⟨true, some 5⟩).1⟩

lemma checkAudioVolume_false_iff (ch : List ℚ) (hne : ch ≠ []) :
    checkAudioVolume ⟨some ch⟩ = false ↔ meanSq ch < QUIET_RMS ^ 2 := by
  simp only [checkAudioVolume, if_neg hne]
  by_cases h : meanSq ch < QUIET_RMS ^ 2 <;> simp [h]

lemma checkAudioVolume_sqrt (ch : List ℚ) (hne : ch ≠ []) :
    checkAudioVolume ⟨some ch⟩ = false ↔ Real.sqrt ((meanSq ch : ℚ) : ℝ) < 8 / 1000 := by
  rw [checkAudioVolume_false_iff ch hne]
  rw [Real.sqrt_lt' (by norm_num : (0:ℝ) < 8 / 1000)]
  rw [show ((8 : ℝ) / 1000) ^ 2 = (((QUIET_RMS ^ 2 : ℚ) : ℝ)) by
    norm_num [QUIET_RMS]]
  exact_mod_cast Iff.rfl

/-- C2: For a captured audio unit in buffered mode whose decode succeeds
(nonempty sample list), the gate is `false` exactly when the RMS — the
square root of the mean of the squared samples — is below 0.008; in that
case loopOnce performs no network send and returns to idle with the
(errorless) `quietSkip` outcome.  When decoding fails the gate is
fail-open: `checkAudioVolume` returns true and the turn proceeds to the
network send. -/
theorem quiet_gate_suppresses_send (env : LoopEnv) (s : LoopState) (ch : List ℚ)
    (hb : s.busy = false) (hc : env.capture = .ok ⟨some ch⟩) (hne : ch ≠ []) :
    (checkAudioVolume ⟨some ch⟩ = false ↔
      Real.sqrt ((meanSq ch : ℚ) : ℝ) < 8 / 1000) ∧
    (checkAudioVolume ⟨some ch⟩ = false →
      (loopOnce env s).2.sendAttempted = false ∧
      (loopOnce env s).2.exit = .quietSkip ∧
      (loopOnce env s).1 = ⟨false, .idle⟩) ∧
    (∀ env2 : LoopEnv, env2.capture = .ok ⟨none⟩ →
      checkAudioVolume ⟨none⟩ = true ∧
      (loopOnce env2 s).2.sendAttempted = true) := by
  refine ⟨checkAudioVolume_sqrt ch hne, fun hq => ?_, fun env2 hc2 => ?_⟩
  · simp [loopOnce, hb, hc, hq]
  · refine ⟨rfl, ?_⟩
    have hv : checkAudioVolume (⟨none⟩ : Blob) = true := rfl
    cases hr : env2.respond <;> simp [loopOnce, hb, hc2, hv, hr]

/-- Witness for `quiet_gate_suppresses_send`: the all-zero sample list is
below the gate, and the quiet turn ends idle without a send. -/
theorem quiet_gate_suppresses_send_witness :
    ((⟨false, Phase.idle⟩ : LoopState).busy = false) ∧
    ((⟨.ok ⟨some [0]⟩, .ok ⟨"", "", none⟩, true, true⟩ : LoopEnv).capture = .ok ⟨some [0]⟩) ∧
    ([(0:ℚ)] ≠ []) ∧
    ((checkAudioVolume ⟨some [0]⟩ = false ↔
      Real.sqrt ((meanSq [0] : ℚ) : ℝ) < 8 / 1000) ∧
    (checkAudioVolume ⟨some [0]⟩ = false →
      (loopOnce ⟨.ok ⟨some [0]⟩, .ok ⟨"", "", none⟩, true, true⟩ ⟨false, .idle⟩).2.sendAttempted = false ∧
      (loopOnce ⟨.ok ⟨some [0]⟩, .ok ⟨"", "", none⟩, true, true⟩ ⟨false, .idle⟩).2.exit = .quietSkip ∧
      (loopOnce ⟨.ok ⟨some [0]⟩, .ok ⟨"", "", none⟩, true, true⟩ ⟨false, .idle⟩).1 = ⟨false, .idle⟩) ∧
    (∀ env2 : LoopEnv, env2.capture = .ok ⟨none⟩ →
      checkAudioVolume ⟨none⟩ = true ∧
      (loopOnce env2 ⟨false, .idle⟩).2.sendAttempted = true)) :=
  ⟨rfl, rfl, by simp,
    quiet_gate_suppresses_send _ ⟨false, .idle⟩ [0] rfl rfl (by simp)⟩

/-- C6: For every frame with a detected face, the tier is near iff the
normalized inter-eye distance reaches the near threshold, medium iff it
is below near but reaches the medium threshold, far otherwise; a frame
qualifies as present iff the tier is near or medium AND both
nose-to-mid-eye pixel offsets are below the attention tolerance AND the
nose lies inside the configured region of interest; and the defaults are
near 0.10, medium 0.07, tolerance 80 px, whole-frame ROI. -/
theorem tier_and_qualifying (cfg : PresenceCfg) (f : FaceFrame) :
    (tierOf cfg f = .near ↔ nearTh cfg ≤ f.eyeDistanceNorm) ∧
    (tierOf cfg f = .medium ↔
      f.eyeDistanceNorm < nearTh cfg ∧ medTh cfg ≤ f.eyeDistanceNorm) ∧
    (tierOf cfg f = .far ↔
      f.eyeDistanceNorm < nearTh cfg ∧ f.eyeDistanceNorm < medTh cfg) ∧
    (qualifiesFrame cfg f = true ↔
      ((tierOf cfg f = .near ∨ tierOf cfg f = .medium) ∧
        (horizOffset f < attTol cfg ∧ vertOffset f < attTol cfg) ∧
        ((roiOf cfg).left ≤ f.noseX ∧ f.noseX ≤ (roiOf cfg).left + (roiOf cfg).width ∧
          (roiOf cfg).top ≤ f.noseY ∧ f.noseY ≤ (roiOf cfg).top + (roiOf cfg).height))) ∧
    nearTh ⟨none, none, none, none⟩ = 10 / 100 ∧
    medTh ⟨none, none, none, none⟩ = 7 / 100 ∧
    attTol ⟨none, none, none, none⟩ = 80 ∧
    roiOf ⟨none, none, none, none⟩ = ⟨0, 0, 1, 1⟩ := by
  refine ⟨?_, ?_, ?_, ?_, rfl, rfl, rfl, rfl⟩
  · by_cases h1 : nearTh cfg ≤ f.eyeDistanceNorm <;>
      by_cases h2 : medTh cfg ≤ f.eyeDistanceNorm <;>
      simp [tierOf, h1, h2, ← not_le]
  · by_cases h1 : nearTh cfg ≤ f.eyeDistanceNorm <;>
      by_cases h2 : medTh cfg ≤ f.eyeDistanceNorm <;>
      simp [tierOf, h1, h2, ← not_le]
  · by_cases h1 : nearTh cfg ≤ f.eyeDistanceNorm <;>
      by_cases h2 : medTh cfg ≤ f.eyeDistanceNorm <;>
      simp [tierOf, h1, h2, ← not_le]
  · simp [qualifiesFrame, attentionOf, inRoiOf, Bool.and_eq_true, Bool.or_eq_true,
      decide_eq_true_eq, and_assoc]

/-- C7 counterexample: the channel closing after `audio_start` (which set
the avatar emotion to happy) and before `audio_end` does NOT deliver
`setEmotion('neutral')` — the close handler leaves the avatar emotion
untouched, so the claim's required neutral reset does not happen. -/
theorem stream_close_no_neutral_counterexample :
    ¬ ((onClose (onMessage ⟨true, true, true, LISTENING_TEXT, "neutral", 16000, 0⟩
        (.audioStart (some 16000) none))).avatarEmotion = "neutral") := by
  simp [onClose, onMessage]

/-- C7 amended: a mid-turn channel close stops the capture recorder and
the microphone tracks, clears the channel handle, and resets the status
display to the idle text; it leaves the avatar emotion, the scheduled
playback, and the sample rate unchanged — no `setEmotion('neutral')` is
emitted on close (only a real `audio_end` frame sets neutral). -/
theorem stream_close_only_capture_side (s : StreamState) :
    (onClose s).wsOpen = false ∧
    (onClose s).recorderActive = false ∧
    (onClose s).micActive = false ∧
    (onClose s).statusText = IDLE_TEXT ∧
    (onClose s).avatarEmotion = s.avatarEmotion ∧
    (onClose s).scheduledSamples = s.scheduledSamples ∧
    (onClose s).sampleRate = s.sampleRate ∧
    (∀ s2 : StreamState, (onMessage s2 .audioEnd).avatarEmotion = "neutral") :=
  ⟨rfl, rfl, rfl, rfl, rfl, rfl, rfl, fun _ => rfl⟩

lemma pollTick_denied : pollTick cameraDeniedInit = cameraDeniedInit := rfl

/-- C8: After camera denial the polling loop keeps running (every
iteration is well defined and leaves the state unchanged) but never
starts a dialogue turn, because `presenceDetected` remains false forever;
a presence-true idle state would start a turn, showing the gate is what
blocks service. -/
theorem camera_denied_never_serves :
    (∀ n : Nat, (pollRun n cameraDeniedInit).turnsStarted = 0) ∧
    (∀ n : Nat, (pollRun n cameraDeniedInit).presenceDetected = false) ∧
    (pollTick ⟨true, .idle, 0⟩).turnsStarted = 1 := by
  have hfix : ∀ n : Nat, pollRun n cameraDeniedInit = cameraDeniedInit := by
    intro n
    induction n with
    | zero => rfl
    | succ m ih => rw [pollRun, pollTick_denied]; exact ih
  refine ⟨fun n => ?_, fun n => ?_, rfl⟩
  · rw [hfix]; rfl
  · rw [hfix]; rfl

lemma toInt16_bounds (lo hi : Nat) (hlo : lo < 256) (hhi : hi < 256) :
    -32768 ≤ toInt16 lo hi ∧ toInt16 lo hi ≤ 32767 := by
  unfold toInt16
  split <;> constructor <;> omega

lemma pcmFloat_bounds (w : ℤ) (h1 : -32768 ≤ w) (h2 : w ≤ 32767) :
    -1 ≤ pcmFloat w ∧ pcmFloat w < 1 := by
  unfold pcmFloat
  constructor
  · rw [le_div_iff₀ (by norm_num : (0:ℚ) < 32768)]
    have : (-32768 : ℚ) ≤ (w : ℚ) := by exact_mod_cast h1
    linarith
  · rw [div_lt_one (by norm_num : (0:ℚ) < 32768)]
    have : (w : ℚ) ≤ 32767 := by exact_mod_cast h2
    linarith

lemma int16Words_even : ∀ bytes : List Nat, bytes.length % 2 = 0 →
    ∃ ws : List ℤ, int16Words bytes = some ws ∧ ws.length = bytes.length / 2 := by
  intro bytes
  induction bytes using int16Words.induct with
  | case1 => intro _; exact ⟨[], rfl, rfl⟩
  | case2 b => intro h; simp at h
  | case3 lo hi rest ih =>
      intro h
      have hr : rest.length % 2 = 0 := by simp at h; omega
      obtain ⟨ws, hws, hlen⟩ := ih hr
      refine ⟨toInt16 lo hi :: ws, ?_, ?_⟩
      · rw [int16Words, hws]; rfl
      · simp [hlen]; omega

lemma int16Words_getD : ∀ (bytes : List Nat) (ws : List ℤ),
    int16Words bytes = some ws →
    ∀ i < ws.length, ws.getD i 0 =
      toInt16 (bytes.getD (2 * i) 0) (bytes.getD (2 * i + 1) 0) := by
  intro bytes
  induction bytes using int16Words.induct with
  | case1 =>
      intro ws hws i hi
      rw [int16Words] at hws
      cases hws
      simp at hi
  | case2 b => intro ws hws; rw [int16Words] at hws; cases hws
  | case3 lo hi rest ih =>
      intro ws hws i hilt
      rw [int16Words] at hws
      cases hrest : int16Words rest with
      | none => rw [hrest] at hws; cases hws
      | some ws' =>
          rw [hrest] at hws
          simp only [Option.map_some'] at hws
          cases hws
          cases i with
          | zero => simp [List.getD_cons_zero]
          | succ j =>
              rw [List.getD_cons_succ]
              rw [show 2 * (j + 1) = 2 * j + 1 + 1 by ring]
              simp only [List.getD_cons_succ]
              exact ih ws' hrest j (by simpa using hilt)

lemma int16Words_mem_bounds : ∀ (bytes : List Nat) (ws : List ℤ),
    int16Words bytes = some ws → (∀ b ∈ bytes, b < 256) →
    ∀ w ∈ ws, -32768 ≤ w ∧ w ≤ 32767 := by
  intro bytes
  induction bytes using int16Words.induct with
  | case1 =>
      intro ws hws _ w hw
      rw [int16Words] at hws
      cases hws
      simp at hw
  | case2 b => intro ws hws; rw [int16Words] at hws; cases hws
  | case3 lo hi rest ih =>
      intro ws hws hb w hw
      rw [int16Words] at hws
      cases hrest : int16Words rest with
      | none => rw [hrest] at hws; cases hws
      | some ws' =>
          rw [hrest] at hws
          simp only [Option.map_some'] at hws
          cases hws
          rcases List.mem_cons.mp hw with rfl | hw'
          · exact toInt16_bounds lo hi (hb lo (by simp)) (hb hi (by simp))
          · exact ih ws' hrest (fun b hbm => hb b (by simp [hbm])) w hw'

lemma totalDuration_even : ∀ chunks : List (List Nat),
    (∀ c ∈ chunks, c.length % 2 = 0) →
    totalDuration chunks 16000 = (pcmSampleCount chunks : ℚ) / 16000 := by
  intro chunks
  induction chunks with
  | nil => simp [totalDuration, pcmSampleCount]
  | cons c rest ih =>
      intro h
      obtain ⟨ws, hws, hlen⟩ := int16Words_even c (h c (by simp))
      have hrest := ih fun c' hc' => h c' (by simp [hc'])
      simp only [totalDuration, pcmSampleCount, List.map_cons, List.sum_cons] at hrest ⊢
      rw [playPcmChunk, hws]
      simp only [Option.map_some']
      rw [hrest, hlen]
      push_cast
      ring

/-- C9: A binary frame after `audio_start` is decoded as raw little-endian
16-bit mono PCM: an even-length byte buffer of in-range bytes decodes to
exactly one 16-bit word per byte pair, sample i of the playback buffer is
the little-endian signed word at bytes 2i,2i+1 divided by 32768, every
sample value lies in [-1, 1), the scheduled buffer duration is
wordCount/sampleRate, and across a turn's chunks at sampleRate 16000 the
total scheduled playback duration is (total sample count)/16000 seconds. -/
theorem pcm_playback (bytes : List Nat) (hb : ∀ b ∈ bytes, b < 256)
    (heven : bytes.length % 2 = 0) :
    (∃ ws : List ℤ, int16Words bytes = some ws ∧
      ws.length = bytes.length / 2 ∧
      playPcmChunk bytes 16000 = some ⟨ws.map pcmFloat, (ws.length : ℚ) / 16000⟩ ∧
      (∀ i < ws.length, ws.getD i 0 =
        toInt16 (bytes.getD (2 * i) 0) (bytes.getD (2 * i + 1) 0)) ∧
      (∀ q ∈ ws.map pcmFloat, -1 ≤ q ∧ q < 1)) ∧
    (∀ chunks : List (List Nat), (∀ c ∈ chunks, c.length % 2 = 0) →
      totalDuration chunks 16000 = (pcmSampleCount chunks : ℚ) / 16000) := by
  obtain ⟨ws, hws, hlen⟩ := int16Words_even bytes heven
  refine ⟨⟨ws, hws, hlen, ?_, int16Words_getD bytes ws hws, ?_⟩, totalDuration_even⟩
  · rw [playPcmChunk, hws]; rfl
  · intro q hq
    obtain ⟨w, hw, rfl⟩ := List.mem_map.mp hq
    obtain ⟨h1, h2⟩ := int16Words_mem_bounds bytes ws hws hb w hw
    exact pcmFloat_bounds w h1 h2

/-- Witness for `pcm_playback`: the two-byte buffer 0x00 0x80 decodes to
the single word -32768, i.e. the sample -1. -/
theorem pcm_playback_witness :
    (∀ b ∈ [0, 128], b < 256) ∧ ([0, 128] : List Nat).length % 2 = 0 ∧
    ((∃ ws : List ℤ, int16Words [0, 128] = some ws ∧
      ws.length = ([0, 128] : List Nat).length / 2 ∧
      playPcmChunk [0, 128] 16000 = some ⟨ws.map pcmFloat, (ws.length : ℚ) / 16000⟩ ∧
      (∀ i < ws.length, ws.getD i 0 =
        toInt16 (([0, 128] : List Nat).getD (2 * i) 0) (([0, 128] : List Nat).getD (2 * i + 1) 0)) ∧
      (∀ q ∈ ws.map pcmFloat, -1 ≤ q ∧ q < 1)) ∧
    (∀ chunks : List (List Nat), (∀ c ∈ chunks, c.length % 2 = 0) →
      totalDuration chunks 16000 = (pcmSampleCount chunks : ℚ) / 16000)) :=
  ⟨by decide, rfl, pcm_playback [0, 128] (by decide) rfl⟩

lemma splitWsAux_ne_nil : ∀ (text cur : List Char), ∀ u ∈ splitWsAux text cur, u ≠ [] := by
  intro text
  induction text with
  | nil =>
      intro cur u hu
      rw [splitWsAux] at hu
      split at hu
      · simp at hu
      · next hcur =>
          simp at hu
          subst hu
          simpa [List.reverse_eq_nil_iff] using hcur
  | cons c cs ih =>
      intro cur u hu
      rw [splitWsAux] at hu
      split at hu
      · split at hu
        · exact ih [] u hu
        · next hcur =>
            rcases List.mem_cons.mp hu with rfl | hu'
            · simpa [List.reverse_eq_nil_iff] using hcur
            · exact ih [] u hu'
      · exact ih (c :: cur) u hu

lemma joinWords_cons_cons (x y : List Char) (rest : List (List Char)) :
    joinWords (x :: y :: rest) = x ++ ' ' :: joinWords (y :: rest) := rfl

lemma joinWords_ne_nil (c : List (List Char)) (hc : c ≠ []) (hw : ∀ w ∈ c, w ≠ []) :
    joinWords c ≠ [] := by
  cases c with
  | nil => exact absurd rfl hc
  | cons x c' =>
      cases c' with
      | nil => exact hw x (by simp)
      | cons y rest => rw [joinWords_cons_cons]; simp

lemma joinWords_append_single : ∀ (c : List (List Char)) (w : List Char), c ≠ [] →
    joinWords (c ++ [w]) = joinWords c ++ ' ' :: w := by
  intro c
  induction c with
  | nil => intro w h; exact absurd rfl h
  | cons x c' ih =>
      intro w _
      cases c' with
      | nil => rfl
      | cons y rest =>
          have hih := ih w (List.cons_ne_nil y rest)
          rw [List.cons_append] at hih
          calc joinWords ((x :: y :: rest) ++ [w])
              = joinWords (x :: y :: (rest ++ [w])) := by simp
            _ = x ++ ' ' :: joinWords (y :: (rest ++ [w])) := joinWords_cons_cons x y _
            _ = x ++ ' ' :: (joinWords (y :: rest) ++ ' ' :: w) := by rw [hih]
            _ = (x ++ ' ' :: joinWords (y :: rest)) ++ ' ' :: w := by simp
            _ = joinWords (x :: y :: rest) ++ ' ' :: w := by rw [joinWords_cons_cons]

lemma linesLoop_chunks (maxChars : Nat) :
    ∀ (ws : List (List Char)) (curChunk : List (List Char)),
    curChunk ≠ [] →
    (∀ w ∈ curChunk, w ≠ []) →
    (∀ w ∈ ws, w ≠ []) →
    (1 < curChunk.length → (joinWords curChunk).length ≤ maxChars) →
    ∃ chunks : List (List (List Char)),
      linesLoop maxChars (joinWords curChunk) ws = chunks.map joinWords ∧
      chunks.flatten = curChunk ++ ws ∧
      ∀ c ∈ chunks, c ≠ [] ∧ (∀ w ∈ c, w ≠ []) ∧
        (1 < c.length → (joinWords c).length ≤ maxChars) := by
  intro ws
  induction ws with
  | nil =>
      intro curChunk hne hwne _ hbound
      refine ⟨[curChunk], ?_, by simp, ?_⟩
      · rw [linesLoop]
        rw [if_neg (by simpa [List.length_eq_zero] using joinWords_ne_nil curChunk hne hwne)]
        rfl
      · intro c hc
        simp at hc
        subst hc
        exact ⟨hne, hwne, hbound⟩
  | cons w ws' ih =>
      intro curChunk hne hwne hwsne hbound
      have hcur_len : ¬ (joinWords curChunk).length = 0 := by
        simpa [List.length_eq_zero] using joinWords_ne_nil curChunk hne hwne
      rw [linesLoop, if_neg hcur_len]
      by_cases hfit : (joinWords curChunk ++ ' ' :: w).length ≤ maxChars
      · rw [if_pos hfit]
        have hjoin : joinWords (curChunk ++ [w]) = joinWords curChunk ++ ' ' :: w :=
          joinWords_append_single curChunk w hne
        rw [← hjoin]
        obtain ⟨chunks, h1, h2, h3⟩ := ih (curChunk ++ [w]) (by simp)
          (fun u hu => by
            rcases List.mem_append.mp hu with h | h
            · exact hwne u h
            · simp at h; subst h; exact hwsne _ (by simp))
          (fun u hu => hwsne u (by simp [hu]))
          (fun _ => by rw [hjoin]; exact hfit)
        exact ⟨chunks, h1, by rw [h2]; simp, h3⟩
      · rw [if_neg hfit]
        obtain ⟨chunks, h1, h2, h3⟩ := ih [w] (by simp)
          (by intro u hu; simp at hu; subst hu; exact hwsne _ (by simp))
          (fun u hu => hwsne u (by simp [hu]))
          (by intro hcontra; simp at hcontra)
        refine ⟨curChunk :: chunks, ?_, ?_, ?_⟩
        · rw [List.map_cons]
          exact congrArg _ h1
        · simp [h2]
        · intro c hc
          rcases List.mem_cons.mp hc with rfl | hc'
          · exact ⟨hne, hwne, hbound⟩
          · exact h3 c hc'

/-- C10: formatSubtitle returns at most 3 lines; the lines are the
single-space joins of a consecutive partition of a prefix of the input's
whitespace-separated words (whole words, input order preserved); every
line with more than one word has length at most the limit; and a line
longer than the limit is necessarily a single input word. -/
theorem formatSubtitle_spec (text : List Char) (maxChars : Nat) :
    (formatSubtitle text maxChars).length ≤ 3 ∧
    ∃ (chunks : List (List (List Char))) (rest : List (List Char)),
      formatSubtitle text maxChars = chunks.map joinWords ∧
      chunks.flatten ++ rest = wordsOf text ∧
      chunks.length ≤ 3 ∧
      (∀ c ∈ chunks, c ≠ [] ∧ (∀ u ∈ c, u ∈ wordsOf text) ∧
        (1 < c.length → (joinWords c).length ≤ maxChars)) ∧
      (∀ line ∈ formatSubtitle text maxChars, maxChars < line.length →
        line ∈ wordsOf text) := by
  have hlen3 : (formatSubtitle text maxChars).length ≤ 3 := by
    rw [formatSubtitle]
    exact List.length_take_le 3 _
  refine ⟨hlen3, ?_⟩
  cases hw : wordsOf text with
  | nil =>
      refine ⟨[], [], ?_, by simp [hw], by simp, by simp, ?_⟩
      · rw [formatSubtitle, hw]; rfl
      · intro line hline
        rw [formatSubtitle, hw] at hline
        simp [linesLoop] at hline
  | cons w ws =>
      have hne : ∀ u ∈ wordsOf text, u ≠ [] := fun u hu => splitWsAux_ne_nil text [] u hu
      obtain ⟨chunks, h1, h2, h3⟩ := linesLoop_chunks maxChars ws [w] (by simp)
        (by intro u hu; simp at hu; subst hu; exact hne _ (by rw [hw]; simp))
        (by intro u hu; exact hne u (by rw [hw]; simp [hu]))
        (by intro hcontra; simp at hcontra)
      have h1' : linesLoop maxChars w ws = chunks.map joinWords := h1
      have hstart : linesLoop maxChars [] (w :: ws) = linesLoop maxChars w ws := by
        rw [linesLoop]
        simp
      have hfmt : formatSubtitle text maxChars = (chunks.take 3).map joinWords := by
        rw [formatSubtitle, hw, hstart, h1', List.map_take]
      refine ⟨chunks.take 3, (chunks.drop 3).flatten, hfmt, ?_, List.length_take_le 3 _, ?_, ?_⟩
      · rw [← List.flatten_append, List.take_append_drop, h2]
        simp
      · intro c hc
        have hc' : c ∈ chunks := List.take_subset _ _ hc
        obtain ⟨hcne, _hcw, hcb⟩ := h3 c hc'
        refine ⟨hcne, ?_, hcb⟩
        intro u hu
        have hmem : u ∈ chunks.flatten := List.mem_flatten.mpr ⟨c, hc', hu⟩
        rw [h2] at hmem
        simpa using hmem
      · intro line hline hlong
        rw [hfmt] at hline
        obtain ⟨c, hc, rfl⟩ := List.mem_map.mp hline
        have hc' : c ∈ chunks := List.take_subset _ _ hc
        obtain ⟨hcne, _hcw, hcb⟩ := h3 c hc'
        have hc1 : c.length ≤ 1 := by
          by_contra hgt
          push_neg at hgt
          exact absurd (hcb hgt) (not_le.mpr hlong)
        have hpos : 0 < c.length := List.length_pos.mpr hcne
        have hone : c.length = 1 := by omega
        obtain ⟨u, rfl⟩ := List.length_eq_one.mp hone
        have hmem : u ∈ chunks.flatten := List.mem_flatten.mpr ⟨[u], hc', by simp⟩
        rw [h2] at hmem
        simpa [joinWords] using hmem

/-- Witness for `formatSubtitle_spec`: a concrete two-word input yields at
most 3 lines. -/
theorem formatSubtitle_spec_witness :
    (formatSubtitle ['a', 'b', ' ', 'c'] 44).length ≤ 3 :=
  (formatSubtitle_spec ['a', 'b', ' ', 'c'] 44).1
